import Mathlib

/-
  Verification of the dynarmic x86-64 backend emitter (backend_x64/emit_x64.cpp)
  and the IR basic-block terminal interface (frontend/ir/basic_block.cpp).

  The emitted x86-64 instruction sequences are shallowly embedded as Lean
  functions on 32-bit machine words represented as `Nat` values below `2 ^ 32`.
  Each `Emit*` definition mirrors, branch for branch, the instruction sequence
  the corresponding C++ emit function writes into the code buffer, using the
  documented semantics of the individual x86 instructions (ADC, SBB, SHL,
  SETcc, CMOVcc, LEA, BT, CMC, ...).
-/

namespace Dynarmic

/-- The most significant bit of a 32-bit machine word. -/
def msb32 (x : Nat) : Bool := Nat.testBit x 31

/-- Interpretation of a 32-bit machine word as a signed two's-complement integer. -/
def toInt32 (x : Nat) : Int := if x < 2 ^ 31 then (x : Int) else (x : Int) - 2 ^ 32

/-- x86 semantics: the 32-bit result of `ADC` (`ADD` is `ADC` with carry-in zero). -/
def x86AdcResult (a b : Nat) (cf : Bool) : Nat := (a + b + cf.toNat) % 2 ^ 32

/-- x86 semantics: the carry flag produced by a 32-bit `ADC`. -/
def x86AdcCF (a b : Nat) (cf : Bool) : Bool := decide (2 ^ 32 ≤ a + b + cf.toNat)

/-- x86 semantics: the overflow flag produced by a 32-bit `ADC`: the operands have
equal sign bits and the result's sign bit differs from them. -/
def x86AdcOF (a b : Nat) (cf : Bool) : Bool :=
  (msb32 a == msb32 b) && (msb32 (x86AdcResult a b cf) != msb32 a)

/-- x86 semantics: the 32-bit result of `SBB` (`SUB` is `SBB` with carry-in zero);
the incoming carry flag acts as a borrow. -/
def x86SbbResult (a b : Nat) (cf : Bool) : Nat := (a + 2 ^ 33 - (b + cf.toNat)) % 2 ^ 32

/-- x86 semantics: the carry flag produced by a 32-bit `SBB` (set on borrow). -/
def x86SbbCF (a b : Nat) (cf : Bool) : Bool := decide (a < b + cf.toNat)

/-- x86 semantics: the overflow flag produced by a 32-bit `SBB`: the operands have
differing sign bits and the result's sign bit differs from the minuend's. -/
def x86SbbOF (a b : Nat) (cf : Bool) : Bool :=
  (msb32 a != msb32 b) && (msb32 (x86SbbResult a b cf) != msb32 a)

/-- The IR carry-in operand of `add_with_carry` / `sub_with_carry`: a U1 immediate
or a value held in a register (`carry_in.IsImmediate()` in `EmitAddWithCarry`). -/
inductive CarryIn where
  | imm (b : Bool)
  | reg (v : Nat)

/-- The effective carry-in bit: an immediate is used directly; for a register
operand the emitters read bit 0 (the `BT cin, 0` instruction). -/
def CarryIn.bit : CarryIn → Bool
  | .imm b => b
  | .reg v => Nat.testBit v 0

/-- Model of the code emitted by `EmitX64::EmitAddWithCarry` with both
`GetCarryFromOp` and `GetOverflowFromOp` pseudo-ops attached.  Returns the
result register, the `SETC` value bound to the carry pseudo-op and the `SETO`
value bound to the overflow pseudo-op.
Immediate carry-in 1: `STC; ADC`; immediate 0: `ADD`; register: `BT cin,0; ADC`. -/
def EmitAddWithCarry (a b : Nat) (cin : CarryIn) : Nat × Bool × Bool :=
  match cin with
  | .imm true => (x86AdcResult a b true, x86AdcCF a b true, x86AdcOF a b true)
  | .imm false => (x86AdcResult a b false, x86AdcCF a b false, x86AdcOF a b false)
  | .reg v =>
      (x86AdcResult a b (Nat.testBit v 0), x86AdcCF a b (Nat.testBit v 0),
       x86AdcOF a b (Nat.testBit v 0))

/-- Model of the code emitted by `EmitX64::EmitSubWithCarry` with both pseudo-ops
attached.  Returns the result register, the `SETNC` value bound to the carry
pseudo-op (note: negation of the x86 carry flag) and the `SETO` value.
Immediate carry-in 1: plain `SUB`; immediate 0: `STC; SBB`; register:
`BT cin,0; CMC; SBB`. -/
def EmitSubWithCarry (a b : Nat) (cin : CarryIn) : Nat × Bool × Bool :=
  match cin with
  | .imm true => (x86SbbResult a b false, !x86SbbCF a b false, x86SbbOF a b false)
  | .imm false => (x86SbbResult a b true, !x86SbbCF a b true, x86SbbOF a b true)
  | .reg v =>
      (x86SbbResult a b (!Nat.testBit v 0), !x86SbbCF a b (!Nat.testBit v 0),
       x86SbbOF a b (!Nat.testBit v 0))

/-- The borrow actually fed into the final `SBB`/`SUB` of `EmitSubWithCarry`:
zero for immediate carry-in 1, one for immediate carry-in 0, and the negation
of bit 0 for a register carry-in (the `CMC` after `BT`). -/
def subBorrowIn : CarryIn → Bool
  | .imm b => !b
  | .reg v => !Nat.testBit v 0

/-- x86 semantics: the 32-bit result of `SHL` with a count already reduced
modulo 32 (the hardware masks the count of a 32-bit shift to 5 bits). -/
def x86Shl32Result (v c : Nat) : Nat := (v <<< (c % 32)) % 2 ^ 32

/-- x86 semantics: the carry flag after `SHL`: a shift by a masked count of zero
leaves the flags untouched, otherwise the carry flag receives the last bit
shifted out, which is bit `32 - c` of the value. -/
def x86Shl32CF (v c : Nat) (cfIn : Bool) : Bool :=
  if c % 32 = 0 then cfIn else Nat.testBit v (32 - c % 32)

/-- x86 semantics: `SETcc` writes an 8-bit 0/1 into the low byte of a register,
leaving the upper bytes untouched. -/
def setccByte (old : Nat) (cc : Bool) : Nat := 256 * (old / 256) + cc.toNat

/-- Model of the code emitted by `EmitX64::EmitLogicalShiftLeft` with a
`GetCarryFromOp` pseudo-op attached, immediate-shift form.  `v` is the value
register, `shift` the `u8` immediate, `carryIn` the register carrying the input
carry.  Returns the result register and the register bound to the carry
pseudo-op.  Branches exactly as the emitter does on the immediate:
`shift == 0` emits nothing; `shift < 32` emits `BT carry,0; SHL; SETC`;
`shift > 32` zeroes both; `shift == 32` moves the value into the carry
register, zeroes the result and masks the carry with 1. -/
def EmitLogicalShiftLeftImm (v shift carryIn : Nat) : Nat × Nat :=
  if shift = 0 then (v, carryIn)
  else if shift < 32 then
    (x86Shl32Result v shift, setccByte carryIn (x86Shl32CF v shift (Nat.testBit carryIn 0)))
  else if 32 < shift then (0, 0)
  else (0, v &&& 1)

/-- Model of the code emitted by `EmitX64::EmitLogicalShiftLeft` with a
`GetCarryFromOp` pseudo-op attached, variable-shift form (`shift` is the low
byte of the host CL register, `shift < 256`).  The emitted code compares the
8-bit count with 32 and branches to `.Rs_gt32` / `.Rs_eq32`, otherwise runs
`BT carry,0; SHL result, CL; SETC` (the `BT` makes a masked count of zero
return the input carry unchanged). -/
def EmitLogicalShiftLeftVar (v shift carryIn : Nat) : Nat × Nat :=
  if 32 < shift then (0, 0)
  else if shift = 32 then (0, v &&& 1)
  else (x86Shl32Result v shift, setccByte carryIn (x86Shl32CF v shift (Nat.testBit carryIn 0)))

/-- Model of `Common::SignExtend(N, value)`: sign-extend an `N`-bit value to a
32-bit machine word. -/
def SignExtendField (N v : Nat) : Nat :=
  if Nat.testBit v (N - 1) then v + (2 ^ 32 - 2 ^ N) else v

/-- Model of the code emitted by `EmitX64::EmitSignedSaturation` with the
`GetOverflowFromOp` pseudo-op attached.  For `N == 32` the value is forwarded
(`RegisterAddDef`) and the pseudo-op is replaced by the constant `false`.
Otherwise the emitted sequence is: `LEA overflow, [a + negative_saturated]`;
`CMP a, positive_saturated; MOV tmp, positive_saturated;
MOV result, sext_negative_saturated; CMOVG result, tmp`;
`CMP overflow, mask; CMOVBE result, a`; `SETA overflow`. -/
def EmitSignedSaturation (a N : Nat) : Nat × Bool :=
  if N = 32 then (a, false)
  else
    let mask : Nat := 2 ^ N - 1
    let positiveSaturatedValue : Nat := 2 ^ (N - 1) - 1
    let negativeSaturatedValue : Nat := 2 ^ (N - 1)
    let sextNegativeSaturatedValue := SignExtendField N negativeSaturatedValue
    let overflow := (a + negativeSaturatedValue) % 2 ^ 32
    let result1 : Nat :=
      if (positiveSaturatedValue : Int) < toInt32 a then positiveSaturatedValue
      else sextNegativeSaturatedValue
    let result := if overflow ≤ mask then a else result1
    (result, decide (mask < overflow))

/-- Model of the code emitted by `EmitX64::EmitBXWritePC` for an immediate
argument.  Returns the new guest PC and the new CPSR.  `T_bit` is `1 << 5`;
the `~T_bit` of the source is the 32-bit constant `0xFFFFFFDF`. -/
def EmitBXWritePCImm (cpsr v : Nat) : Nat × Nat :=
  if Nat.testBit v 0 then (v &&& 0xFFFFFFFE, cpsr ||| 32)
  else (v &&& 0xFFFFFFFC, cpsr &&& 0xFFFFFFDF)

/-- Model of the code emitted by `EmitX64::EmitBXWritePC` for a register
argument: `MOV tmp1, cpsr; MOV tmp2, tmp1; AND tmp2, ~T; OR tmp1, T;
TEST new_pc, 1; CMOVE tmp1, tmp2; MOV cpsr, tmp1;
LEA tmp2, [new_pc + new_pc]; OR tmp2, 0xFFFFFFFC; AND new_pc, tmp2;
MOV pc, new_pc` (the guest PC slot is a 32-bit store). -/
def EmitBXWritePCReg (cpsr v : Nat) : Nat × Nat :=
  let tmp1 := cpsr ||| 32
  let tmp2 := cpsr &&& 0xFFFFFFDF
  let newCpsr := if v &&& 1 = 0 then tmp2 else tmp1
  let mask := 2 * v ||| 0xFFFFFFFC
  ((v &&& mask) % 2 ^ 32, newCpsr)

/-- Byte lane `i` of a 32-bit machine word. -/
def byteAt (x i : Nat) : Nat := x / 2 ^ (8 * i) % 2 ^ 8

/-- The byte-wise unsigned halving add the claim specifies: each of the four
byte lanes independently becomes `(a_i + b_i) >> 1`. -/
def bytewiseHalvingAddU8 (a b : Nat) : Nat :=
  (byteAt a 0 + byteAt b 0) / 2
    + 2 ^ 8 * ((byteAt a 1 + byteAt b 1) / 2)
    + 2 ^ 16 * ((byteAt a 2 + byteAt b 2) / 2)
    + 2 ^ 24 * ((byteAt a 3 + byteAt b 3) / 2)

/-- One 16-bit lane of the SSSE3 path of `EmitX64::EmitPackedHalvingAddU8`:
the `PSHUFB` with mask `0x8003800280018000` zero-extends byte `i` of each
operand into 16-bit lane `i`, `PADDW` adds the lanes modulo `2^16`, and
`PSRLW 1` halves each lane. -/
def sseHalvingLane (a b i : Nat) : Nat := ((byteAt a i + byteAt b i) % 2 ^ 16) >>> 1

/-- Model of the SSSE3 path of `EmitX64::EmitPackedHalvingAddU8`: after the
lane-wise add and shift, the `PSHUFB` with mask `0x06040200` packs byte 0 of
each 16-bit lane back into a 32-bit value. -/
def EmitPackedHalvingAddU8SSE (a b : Nat) : Nat :=
  sseHalvingLane a b 0 % 2 ^ 8
    + 2 ^ 8 * (sseHalvingLane a b 1 % 2 ^ 8)
    + 2 ^ 16 * (sseHalvingLane a b 2 % 2 ^ 8)
    + 2 ^ 24 * (sseHalvingLane a b 3 % 2 ^ 8)

/-- Model of the pure-GPR fallback of `EmitX64::EmitPackedHalvingAddU8`:
`MOV xor_a_b, a; AND and_a_b, b; XOR xor_a_b, b; SHR xor_a_b, 1;
AND xor_a_b, 0x7F7F7F7F; ADD result, xor_a_b` — i.e.
`(a & b) + (((a ^ b) >> 1) & 0x7F7F7F7F)` on 32-bit registers. -/
def EmitPackedHalvingAddU8GPR (a b : Nat) : Nat :=
  ((a &&& b) + (((a ^^^ b) >>> 1) &&& 0x7F7F7F7F)) % 2 ^ 32

/-- Guest location descriptor: PC, Thumb flag, big-endian flag and the FPSCR
mode bits (`IR::LocationDescriptor`). -/
structure LocationDescriptor where
  pc : Nat
  tflag : Bool
  eflag : Bool
  fpscrMode : Nat
deriving DecidableEq

/-- The CPSR rewrite emitted at the head of `EmitTerminal(IR::Term::LinkBlock)`
and `LinkBlockFast`: bit 5 (T) and bit 9 (E) are rewritten only when the
corresponding flag of the destination differs from the current location's. -/
def linkBlockCpsrUpdate (cpsr : Nat) (next initialLoc : LocationDescriptor) : Nat :=
  let c1 :=
    if next.tflag ≠ initialLoc.tflag then
      if next.tflag then cpsr ||| 32 else cpsr &&& 0xFFFFFFDF
    else cpsr
  if next.eflag ≠ initialLoc.eflag then
    if next.eflag then c1 ||| 512 else c1 &&& 0xFFFFFDFF
  else c1

/-- What the code emitted after a block transfers control to. -/
inductive BlockExit where
  | jumpTo (ptr : Nat)
  | dispatch (pc : Nat)
deriving DecidableEq

/-- Runtime behaviour of the code emitted by
`EmitTerminal(IR::Term::LinkBlock)`: after the CPSR rewrite, the emitted
`CMP qword [r15+cycles_remaining], 0` and the patchable `JG` jump to the
target block only when the target was known at emission time
(`GetBasicBlock(terminal.next)`) and `cycles_remaining` is strictly positive;
in every other case execution falls through to
`MOV pc, terminal.next.PC(); ReturnFromRunCode()`. -/
def EmitTerminalLinkBlockRun (cpsr : Nat) (cyclesRemaining : Int)
    (next initialLoc : LocationDescriptor) (target : Option Nat) : Nat × BlockExit :=
  let newCpsr := linkBlockCpsrUpdate cpsr next initialLoc
  match target with
  | some ptr =>
      if 0 < cyclesRemaining then (newCpsr, .jumpTo ptr)
      else (newCpsr, .dispatch next.pc)
  | none => (newCpsr, .dispatch next.pc)

/-- The three kinds of patch site the backend records
(`PatchInformation::jg / jmp / mov_rcx`). -/
inductive PatchKind where
  | jg
  | jmp
  | movRcx
deriving DecidableEq

/-- The byte budget of each patch site: 6 for the conditional jump, 13 for the
unconditional jump, 10 for the `MOV RCX, imm64`. -/
def patchBudget : PatchKind → Nat
  | .jg => 6
  | .jmp => 13
  | .movRcx => 10

/-- Modelled from the spec: byte lengths of the x86-64 instruction sequences the
patch emitters write before padding (the assembler, `BlockOfCode`, is not part
of the sources at hand).  A near `JG rel32` is 6 bytes; a `JMP rel32` is 5
bytes; the null-target fallback `MOV dword [r15+disp], imm32; JMP rel32` is 13
bytes; `MOV RCX, imm64` is always 10 bytes (a null target is substituted by the
return-from-run-code address before emission, `EmitX64::EmitPatchMovRcx`). -/
def patchEmitLen : PatchKind → Option Nat → Nat
  | .jg, some _ => 6
  | .jg, none => 0
  | .jmp, some _ => 5
  | .jmp, none => 13
  | .movRcx, _ => 10

/-- Modelled from the spec: `BlockOfCode::EnsurePatchLocationSize(loc, size)`
pads the emitted sequence with NOPs up to `size` bytes and panics (here:
`none`) if the emitted sequence is longer.  Returns the final byte length of
the site together with the number of padding NOPs. -/
def EnsurePatchLocationSize (emitted size : Nat) : Option (Nat × Nat) :=
  if size < emitted then none else some (emitted + (size - emitted), size - emitted)

/-- One rewrite of a patch site, as performed by `EmitX64::Patch` via
`EmitPatchJg` / `EmitPatchJmp` / `EmitPatchMovRcx`: re-emit the site for the
given target (`none` models a null code pointer) and re-establish its byte
budget. -/
def rewritePatchSite (k : PatchKind) (target : Option Nat) : Option (Nat × Nat) :=
  EnsurePatchLocationSize (patchEmitLen k target) (patchBudget k)

/-- Model of `EmitX64::Unpatch`, which is literally `Patch(desc, nullptr)`. -/
def unpatchSite (k : PatchKind) : Option (Nat × Nat) := rewritePatchSite k none

/-- Where a rewritten patch site sends control at runtime, given the
return-from-run-code (dispatcher) address: a null-target `JG` site is pure
padding and falls through (`none`); a null-target `JMP` site jumps to the
dispatcher after storing the guest PC; a null-target `MOV RCX` site loads the
dispatcher address. -/
def patchSiteResolvedTarget (returnAddr : Nat) : PatchKind → Option Nat → Option Nat
  | .jg, some p => some p
  | .jg, none => none
  | .jmp, some p => some p
  | .jmp, none => some returnAddr
  | .movRcx, some p => some p
  | .movRcx, none => some returnAddr

/-- The exclusive-monitor fields of the guest state (`JitState`):
`exclusive_state` is a byte flag, `exclusive_address` the marked address. -/
structure MonitorState where
  exclusiveState : Nat
  exclusiveAddress : Nat
deriving DecidableEq

/-- Model of the code emitted by `ExclusiveWrite` (all widths share it; the
64-bit variant `EmitExclusiveWriteMemory64` duplicates the same guard):
`MOV passed, 1; CMP byte [r15+exclusive_state], 0; JE end;
MOV tmp, addr; XOR tmp, [r15+exclusive_address];
TEST tmp, RESERVATION_GRANULE_MASK; JNE end;
MOV byte [r15+exclusive_state], 0; CALL write_callback; XOR passed, passed`.
Returns the `passed` result, the new monitor state, and whether the write
callback was invoked.  The granule mask is kept as a parameter: its value
lives in `JitState`, outside the sources at hand. -/
def ExclusiveWriteRun (s : MonitorState) (mask addr : Nat) : Nat × MonitorState × Bool :=
  if s.exclusiveState = 0 then (1, s, false)
  else if (addr ^^^ s.exclusiveAddress) &&& mask ≠ 0 then (1, s, false)
  else (0, ⟨0, s.exclusiveAddress⟩, true)

/-- The 64-bit value assembled by `EmitExclusiveWriteMemory64` before the
callback: `MOV value.cvt32, value.cvt32` zero-extends the low word,
`SHL value_hi, 32; OR value, value_hi` puts the high word on top. -/
def ExclusiveWrite64Value (lo hi : Nat) : Nat := lo % 2 ^ 32 ||| hi <<< 32 % 2 ^ 64

/-- The IR block terminal (`IR::Terminal`), a variant whose first alternative
is `Term::Invalid` (`which() == 0`).  Condition codes are represented by their
ARM encoding (AL = 14). -/
inductive Terminal where
  | invalid
  | interpret (next : LocationDescriptor)
  | returnToDispatch
  | linkBlock (next : LocationDescriptor)
  | linkBlockFast (next : LocationDescriptor)
  | popRSBHint
  | condIf (cond : Nat) (thenTerm elseTerm : Terminal)
  | checkHalt (elseTerm : Terminal)

/-- Model of `boost::variant::which()` on `IR::Terminal`: the zero-based index
of the active alternative, 0 being `Term::Invalid`. -/
def Terminal.which : Terminal → Nat
  | .invalid => 0
  | .interpret _ => 1
  | .returnToDispatch => 2
  | .linkBlock _ => 3
  | .linkBlockFast _ => 4
  | .popRSBHint => 5
  | .condIf _ _ _ => 6
  | .checkHalt _ => 7

/-- The fields of `IR::Block` relevant to the terminal interface, with the
in-class initialisers of `basic_block.h` (`cond = AL`, no condition-failed
location, zero cycle counts, `terminal = Term::Invalid{}`).  The instruction
list is kept abstract as a count; it plays no role in the terminal interface. -/
structure Block where
  location : LocationDescriptor
  cond : Nat
  condFailed : Option LocationDescriptor
  condFailedCycleCount : Nat
  terminal : Terminal
  cycleCount : Nat

/-- Model of the `IR::Block` constructor: only the location is supplied, every
other field takes its in-class initialiser. -/
def mkBlock (loc : LocationDescriptor) : Block :=
  { location := loc, cond := 14, condFailed := none, condFailedCycleCount := 0,
    terminal := .invalid, cycleCount := 0 }

/-- Model of `IR::Block::HasTerminal`: `terminal.which() != 0`. -/
def Block.HasTerminal (b : Block) : Bool := b.terminal.which != 0

/-- Model of `IR::Block::GetTerminal`. -/
def Block.GetTerminal (b : Block) : Terminal := b.terminal

/-- Model of `IR::Block::SetTerminal`: the `ASSERT_MSG(!HasTerminal(), ...)`
makes the call fatal (here: `none`) when a terminal is already set. -/
def Block.SetTerminal (b : Block) (t : Terminal) : Option Block :=
  if b.HasTerminal then none else some { b with terminal := t }

theorem testBit31_eq (x : Nat) (hx : x < 2 ^ 32) :
    Nat.testBit x 31 = decide (2 ^ 31 ≤ x) := by
  rw [Nat.testBit_to_div_mod, decide_eq_decide]
  omega

theorem adcOF_iff (a b : Nat) (cf : Bool) (ha : a < 2 ^ 32) (hb : b < 2 ^ 32) :
    x86AdcOF a b cf = true ↔
      ¬(-(2 ^ 31) ≤ toInt32 a + toInt32 b + (cf.toNat : Int) ∧
        toInt32 a + toInt32 b + (cf.toNat : Int) < 2 ^ 31) := by
  have hr : (a + b + cf.toNat) % 2 ^ 32 < 2 ^ 32 := Nat.mod_lt _ (by norm_num)
  unfold x86AdcOF x86AdcResult msb32 toInt32
  rw [testBit31_eq a ha, testBit31_eq b hb, testBit31_eq _ hr]
  rcases cf <;> simp only [Bool.toNat_true, Bool.toNat_false] <;>
    · simp only [Bool.and_eq_true, beq_iff_eq, bne_iff_ne, ne_eq, decide_eq_decide,
        Nat.cast_ofNat, Nat.cast_zero, Nat.cast_one]
      split_ifs <;> omega

/-- Claim C1: the code emitted for `add_with_carry(a, b, cin)` with both the
`GetCarryFromOp` and `GetOverflowFromOp` pseudo-ops attached computes
`(a + b + cin) mod 2^32`, binds the ARM carry-out of the 32-bit addition to the
carry pseudo-op, and binds the signed-overflow bit to the overflow pseudo-op. -/
theorem addWithCarry_correct (a b : Nat) (cin : CarryIn)
    (ha : a < 2 ^ 32) (hb : b < 2 ^ 32) :
    (EmitAddWithCarry a b cin).1 = (a + b + cin.bit.toNat) % 2 ^ 32 ∧
    (EmitAddWithCarry a b cin).2.1 = decide (2 ^ 32 ≤ a + b + cin.bit.toNat) ∧
    ((EmitAddWithCarry a b cin).2.2 = true ↔
      ¬(-(2 ^ 31) ≤ toInt32 a + toInt32 b + (cin.bit.toNat : Int) ∧
        toInt32 a + toInt32 b + (cin.bit.toNat : Int) < 2 ^ 31)) := by
  cases cin with
  | imm c => cases c <;> exact ⟨rfl, rfl, adcOF_iff _ _ _ ha hb⟩
  | reg v => exact ⟨rfl, rfl, adcOF_iff _ _ _ ha hb⟩

/-- Witness for C1, instantiating the scenario E1: `0x7FFFFFFF + 1 + 0` gives
result `0x80000000`, carry 0, overflow 1. -/
theorem addWithCarry_correct_witness :
    (EmitAddWithCarry 0x7FFFFFFF 1 (.imm false)).1 = 0x80000000 ∧
    (EmitAddWithCarry 0x7FFFFFFF 1 (.imm false)).2.1 = false ∧
    (EmitAddWithCarry 0x7FFFFFFF 1 (.imm false)).2.2 = true := by
  have h := addWithCarry_correct 0x7FFFFFFF 1 (.imm false) (by norm_num) (by norm_num)
  refine ⟨h.1.trans (by norm_num [CarryIn.bit]), h.2.1.trans (by norm_num [CarryIn.bit]), h.2.2.mpr ?_⟩
  norm_num [toInt32, CarryIn.bit]



/-- Claim C2: the code emitted for `sub_with_carry(a, b, cin)` computes
`(a - b - (1 - cin)) mod 2^32`; the carry pseudo-op receives the negation of
the x86 carry flag after the subtraction (`SETNC`), which is the ARM carry
(no-borrow); and the immediate-1, immediate-0 and register carry-in paths all
produce the same ARM result. -/
theorem subWithCarry_correct (a b : Nat) (cin : CarryIn)
    (ha : a < 2 ^ 32) (hb : b < 2 ^ 32) :
    (((EmitSubWithCarry a b cin).1 : Nat) : Int) =
      ((a : Int) - b - (1 - cin.bit.toNat)) % 2 ^ 32 ∧
    (EmitSubWithCarry a b cin).2.1 = !x86SbbCF a b (subBorrowIn cin) ∧
    (EmitSubWithCarry a b cin).2.1 = decide (b + (subBorrowIn cin).toNat ≤ a) ∧
    (∀ v, (EmitSubWithCarry a b (.reg v)).1
        = (EmitSubWithCarry a b (.imm (Nat.testBit v 0))).1) := by
  have hpath : ∀ v, (EmitSubWithCarry a b (.reg v)).1
      = (EmitSubWithCarry a b (.imm (Nat.testBit v 0))).1 := by
    intro v
    cases h : Nat.testBit v 0 <;>
      simp [EmitSubWithCarry, h]
  refine ⟨?_, ?_, ?_, hpath⟩
  · cases cin with
    | imm c =>
        cases c <;>
          · simp only [EmitSubWithCarry, CarryIn.bit, x86SbbResult,
              Bool.toNat_true, Bool.toNat_false]
            omega
    | reg v =>
        cases h : Nat.testBit v 0 <;>
          · simp only [EmitSubWithCarry, CarryIn.bit, x86SbbResult, h,
              Bool.not_true, Bool.not_false, Bool.toNat_true, Bool.toNat_false]
            omega
  · cases cin with
    | imm c => cases c <;> rfl
    | reg v => rfl
  · cases cin with
    | imm c =>
        cases c <;>
          · simp only [EmitSubWithCarry, subBorrowIn, x86SbbCF, Bool.not_true,
              Bool.not_false, Bool.toNat_true, Bool.toNat_false]
            rw [← decide_not, decide_eq_decide]
            omega
    | reg v =>
        cases h : Nat.testBit v 0 <;>
          · simp only [EmitSubWithCarry, subBorrowIn, x86SbbCF, h, Bool.not_true,
              Bool.not_false, Bool.toNat_true, Bool.toNat_false]
            rw [← decide_not, decide_eq_decide]
            omega



/-- Witness for C2: `10 - 3` with immediate carry-in 1 (the plain `SUB` path)
gives 7 with the ARM carry (no borrow) set. -/
theorem subWithCarry_correct_witness :
    (((EmitSubWithCarry 10 3 (.imm true)).1 : Nat) : Int) =
      ((10 : Int) - 3 - (1 - (CarryIn.imm true).bit.toNat)) % 2 ^ 32 ∧
    (EmitSubWithCarry 10 3 (.imm true)).2.1 = true := by
  have h := subWithCarry_correct 10 3 (.imm true) (by norm_num) (by norm_num)
  exact ⟨h.1, h.2.2.1.trans (by decide)⟩

theorem setccByte_small (c : Nat) (b : Bool) (hc : c < 2) : setccByte c b = b.toNat := by
  cases b <;> · unfold setccByte; omega

theorem carryBit_small (c : Nat) (hc : c < 2) : (Nat.testBit c 0).toNat = c := by
  interval_cases c <;> rfl

/-- Claim C3: the code emitted for `logical_shift_left` with `GetCarryFromOp`
attached, in both the immediate and the variable form, realises the ARM LSL
semantics: shift 0 passes value and carry through; shifts 1..31 give
`(v << s) mod 2^32` with carry = bit `32 - s` of `v`; shift 32 gives zero with
carry = bit 0 of `v`; larger shifts give zero value and zero carry. -/
theorem logicalShiftLeft_correct (v s c : Nat)
    (hv : v < 2 ^ 32) (hs : s < 256) (hc : c < 2) :
    (s = 0 → EmitLogicalShiftLeftImm v s c = (v, c)
      ∧ EmitLogicalShiftLeftVar v s c = (v, c)) ∧
    (0 < s → s < 32 →
      EmitLogicalShiftLeftImm v s c
          = ((v <<< s) % 2 ^ 32, (Nat.testBit v (32 - s)).toNat)
        ∧ EmitLogicalShiftLeftVar v s c
          = ((v <<< s) % 2 ^ 32, (Nat.testBit v (32 - s)).toNat)) ∧
    (s = 32 → EmitLogicalShiftLeftImm v s c = (0, (Nat.testBit v 0).toNat)
      ∧ EmitLogicalShiftLeftVar v s c = (0, (Nat.testBit v 0).toNat)) ∧
    (32 < s → EmitLogicalShiftLeftImm v s c = (0, 0)
      ∧ EmitLogicalShiftLeftVar v s c = (0, 0)) := by
  have hbit0 : v &&& 1 = (Nat.testBit v 0).toNat := by
    rw [Nat.and_one_is_mod, Nat.testBit_zero]
    rcases Nat.mod_two_eq_zero_or_one v with h | h <;> rw [h] <;> rfl
  have hmid : 0 < s → s < 32 →
      (x86Shl32Result v s, setccByte c (x86Shl32CF v s (Nat.testBit c 0)))
        = ((v <<< s) % 2 ^ 32, (Nat.testBit v (32 - s)).toNat) := by
    intro h1 h2
    have hm : s % 32 = s := Nat.mod_eq_of_lt h2
    unfold x86Shl32Result x86Shl32CF
    rw [hm, if_neg (by omega)]
    rw [setccByte_small c _ hc]
  refine ⟨?_, ?_, ?_, ?_⟩
  · intro h0
    subst h0
    constructor
    · rfl
    · unfold EmitLogicalShiftLeftVar x86Shl32Result x86Shl32CF
      rw [if_neg (by omega), if_neg (by omega), if_pos (by omega)]
      rw [setccByte_small c _ hc, Nat.shiftLeft_zero, Nat.mod_eq_of_lt hv]
      rw [carryBit_small c hc]
  · intro h1 h2
    constructor
    · unfold EmitLogicalShiftLeftImm
      rw [if_neg (by omega), if_pos h2]
      exact hmid h1 h2
    · unfold EmitLogicalShiftLeftVar
      rw [if_neg (by omega), if_neg (by omega)]
      exact hmid h1 h2
  · intro h0
    subst h0
    constructor
    · unfold EmitLogicalShiftLeftImm
      rw [if_neg (by omega), if_neg (by omega), if_neg (by omega), hbit0]
    · unfold EmitLogicalShiftLeftVar
      rw [if_neg (by omega), if_pos rfl, hbit0]
  · intro h0
    constructor
    · unfold EmitLogicalShiftLeftImm
      rw [if_neg (by omega), if_neg (by omega), if_pos h0]
    · unfold EmitLogicalShiftLeftVar
      rw [if_pos h0]

/-- Witness for C3, instantiating the scenario E2: LSL of `0xDEADBEEF` by 32
gives result 0 and carry-out = bit 0 = 1. -/
theorem logicalShiftLeft_correct_witness :
    EmitLogicalShiftLeftImm 0xDEADBEEF 32 0 = (0, 1) ∧
    EmitLogicalShiftLeftVar 0xDEADBEEF 32 0 = (0, 1) := by
  have h := logicalShiftLeft_correct 0xDEADBEEF 32 0 (by norm_num) (by norm_num)
    (by norm_num)
  have h32 := h.2.2.1 rfl
  exact ⟨h32.1.trans (by norm_num), h32.2.trans (by norm_num)⟩



/-- Claim C4: for `signed_saturation(a, N)` with `N` in 1..=32, the emitted code
produces a value in `[-2^(N-1), 2^(N-1)-1]` (two's complement in 32 bits),
which equals `a` when `a` is in range and the nearer bound otherwise; the
overflow pseudo-op is true exactly when `a` lies outside the range; `N = 32`
passes the value through with the overflow pseudo-op constant-folded to false. -/
theorem signedSaturation_correct (a N : Nat)
    (ha : a < 2 ^ 32) (hN1 : 1 ≤ N) (hN2 : N ≤ 32) :
    (-((2 : Int) ^ (N - 1)) ≤ toInt32 (EmitSignedSaturation a N).1 ∧
      toInt32 (EmitSignedSaturation a N).1 ≤ (2 : Int) ^ (N - 1) - 1) ∧
    ((-((2 : Int) ^ (N - 1)) ≤ toInt32 a ∧ toInt32 a ≤ (2 : Int) ^ (N - 1) - 1) →
      (EmitSignedSaturation a N).1 = a) ∧
    ((2 : Int) ^ (N - 1) - 1 < toInt32 a →
      toInt32 (EmitSignedSaturation a N).1 = (2 : Int) ^ (N - 1) - 1) ∧
    (toInt32 a < -((2 : Int) ^ (N - 1)) →
      toInt32 (EmitSignedSaturation a N).1 = -((2 : Int) ^ (N - 1))) ∧
    ((EmitSignedSaturation a N).2 = true ↔
      ¬(-((2 : Int) ^ (N - 1)) ≤ toInt32 a ∧ toInt32 a ≤ (2 : Int) ^ (N - 1) - 1)) ∧
    (N = 32 → EmitSignedSaturation a N = (a, false)) := by
  have hcast : ((2 : Int) ^ (N - 1)) = (((2 : Nat) ^ (N - 1) : Nat) : Int) := by
    push_cast
    rfl
  rcases eq_or_lt_of_le hN2 with h32 | hlt
  · subst h32
    unfold EmitSignedSaturation toInt32
    rw [hcast]
    norm_num
    split_ifs <;> omega
  · have hne : N ≠ 32 := by omega
    have hP1 : 1 ≤ (2 : Nat) ^ (N - 1) := Nat.one_le_two_pow
    have hP30 : (2 : Nat) ^ (N - 1) ≤ 2 ^ 30 := Nat.pow_le_pow_right (by norm_num) (by omega)
    have h2N : (2 : Nat) ^ N = 2 * 2 ^ (N - 1) := by
      conv_lhs => rw [show N = (N - 1) + 1 by omega]
      rw [pow_succ]
      ring
    have h30 : (2 : Nat) ^ 30 = 1073741824 := by norm_num
    rw [h30] at hP30
    unfold EmitSignedSaturation SignExtendField toInt32
    rw [if_neg hne]
    simp only [Nat.testBit_two_pow_self, eq_self_iff_true, if_true, ite_true,
      decide_eq_true_eq, hcast]
    split_ifs <;> omega


/-- Witness for C4: saturating 256 to 8 bits clamps to 127 and reports
overflow. -/
theorem signedSaturation_correct_witness :
    (EmitSignedSaturation 256 8).1 = 127 ∧
    ((EmitSignedSaturation 256 8).2 = true ↔
      ¬(-((2 : Int) ^ (8 - 1)) ≤ toInt32 256 ∧ toInt32 256 ≤ (2 : Int) ^ (8 - 1) - 1)) := by
  have h := signedSaturation_correct 256 8 (by norm_num) (by norm_num) (by norm_num)
  exact ⟨by decide, h.2.2.2.2.1⟩

theorem testBit_c32 (i : Nat) : Nat.testBit 32 i = decide (i = 5) := by
  rw [show (32 : Nat) = 2 ^ 5 by norm_num, Nat.testBit_two_pow, decide_eq_decide]
  exact eq_comm

theorem testBit_high_false (m i : Nat) (hm : m < 2 ^ 32) (hi : 32 ≤ i) :
    Nat.testBit m i = false := by
  refine Nat.testBit_lt_two_pow (lt_of_lt_of_le hm ?_)
  exact Nat.pow_le_pow_right (by norm_num) hi

theorem testBit_maskFE (i : Nat) :
    Nat.testBit 0xFFFFFFFE i = decide (1 ≤ i ∧ i < 32) := by
  by_cases h : i < 32
  · interval_cases i <;> decide
  · rw [testBit_high_false _ _ (by norm_num) (by omega)]
    simp
    omega

theorem testBit_maskFC (i : Nat) :
    Nat.testBit 0xFFFFFFFC i = decide (2 ≤ i ∧ i < 32) := by
  by_cases h : i < 32
  · interval_cases i <;> decide
  · rw [testBit_high_false _ _ (by norm_num) (by omega)]
    simp
    omega

theorem testBit_maskDF (i : Nat) :
    Nat.testBit 0xFFFFFFDF i = decide (i < 32 ∧ i ≠ 5) := by
  by_cases h : i < 32
  · interval_cases i <;> decide
  · rw [testBit_high_false _ _ (by norm_num) (by omega)]
    simp
    omega

theorem regPCMask (v : Nat) (hv : v < 2 ^ 32) :
    v &&& (2 * v ||| 0xFFFFFFFC)
      = v &&& (if Nat.testBit v 0 then 0xFFFFFFFE else 0xFFFFFFFC) := by
  have h2v : 2 * v = v <<< 1 := by rw [Nat.shiftLeft_eq]; ring
  apply Nat.eq_of_testBit_eq
  intro i
  rw [Nat.testBit_and, Nat.testBit_or, h2v, Nat.testBit_shiftLeft]
  by_cases hb : Nat.testBit v 0
  · rw [if_pos hb, Nat.testBit_and, testBit_maskFE, testBit_maskFC]
    by_cases hi32 : i < 32
    · match i with
      | 0 => simp
      | 1 => simp [hb]
      | (j + 2) => simp [hi32, show (2 : Nat) ≤ j + 2 by omega, show (1 : Nat) ≤ j + 2 by omega]
    · rw [testBit_high_false v i hv (by omega)]
      simp
  · rw [Bool.not_eq_true] at hb
    rw [if_neg (by simp [hb]), Nat.testBit_and, testBit_maskFC]
    by_cases hi32 : i < 32
    · match i with
      | 0 => simp
      | 1 => simp [hb]
      | (j + 2) => simp [hi32, show (2 : Nat) ≤ j + 2 by omega]
    · rw [testBit_high_false v i hv (by omega)]
      simp



theorem andOne_eq_zero_iff (v : Nat) : (v &&& 1 = 0) ↔ (Nat.testBit v 0 = false) := by
  rw [Nat.and_one_is_mod, Nat.testBit_zero]
  simp

/-- Claim C5: `BXWritePC` (immediate and register forms agree) stores
`v & 0xFFFFFFFE` and sets CPSR bit 5 when bit 0 of the new PC is 1, stores
`v & 0xFFFFFFFC` and clears CPSR bit 5 when bit 0 is 0, and leaves every other
CPSR bit unchanged. -/
theorem bxWritePC_correct (cpsr v : Nat) (hcpsr : cpsr < 2 ^ 32) (hv : v < 2 ^ 32) :
    EmitBXWritePCReg cpsr v = EmitBXWritePCImm cpsr v ∧
    (Nat.testBit v 0 = true →
      (EmitBXWritePCImm cpsr v).1 = v &&& 0xFFFFFFFE ∧
      Nat.testBit (EmitBXWritePCImm cpsr v).2 5 = true) ∧
    (Nat.testBit v 0 = false →
      (EmitBXWritePCImm cpsr v).1 = v &&& 0xFFFFFFFC ∧
      Nat.testBit (EmitBXWritePCImm cpsr v).2 5 = false) ∧
    (∀ i, i ≠ 5 → Nat.testBit (EmitBXWritePCImm cpsr v).2 i = Nat.testBit cpsr i) := by
  have hmod : ∀ m : Nat, (v &&& m) % 2 ^ 32 = v &&& m := fun m =>
    Nat.mod_eq_of_lt (lt_of_le_of_lt Nat.and_le_left hv)
  refine ⟨?_, ?_, ?_, ?_⟩
  · unfold EmitBXWritePCReg EmitBXWritePCImm
    dsimp only
    rw [regPCMask v hv, hmod]
    by_cases hb : Nat.testBit v 0
    · rw [if_pos hb, if_neg (show ¬(v &&& 1 = 0) by rw [andOne_eq_zero_iff, hb]; simp)]
      rw [if_pos hb]
    · rw [Bool.not_eq_true] at hb
      rw [if_neg (by simp [hb]), if_pos ((andOne_eq_zero_iff v).mpr hb)]
      rw [if_neg (by simp [hb])]
  · intro hb
    unfold EmitBXWritePCImm
    rw [if_pos hb]
    refine ⟨rfl, ?_⟩
    rw [Nat.testBit_or, testBit_c32]
    simp
  · intro hb
    unfold EmitBXWritePCImm
    rw [if_neg (by simp [hb])]
    refine ⟨rfl, ?_⟩
    rw [Nat.testBit_and, testBit_maskDF]
    simp
  · intro i hi
    unfold EmitBXWritePCImm
    by_cases hb : Nat.testBit v 0
    · rw [if_pos hb]
      simp only [Nat.testBit_or, testBit_c32]
      simp [hi]
    · rw [Bool.not_eq_true] at hb
      rw [if_neg (by simp [hb])]
      simp only [Nat.testBit_and, testBit_maskDF]
      by_cases hi32 : i < 32
      · simp [hi32, hi]
      · rw [testBit_high_false cpsr i hcpsr (by omega)]
        simp

/-- Witness for C5, instantiating the scenario E3: `BXWritePC(0x00001001)` with
an all-zero CPSR gives PC `0x00001000` and CPSR.T set. -/
theorem bxWritePC_correct_witness :
    (EmitBXWritePCImm 0 0x00001001).1 = 0x00001000 ∧
    Nat.testBit (EmitBXWritePCImm 0 0x00001001).2 5 = true := by
  have h := bxWritePC_correct 0 0x00001001 (by norm_num) (by norm_num)
  obtain ⟨h1, h2⟩ := h.2.1 (by decide)
  exact ⟨h1.trans (by decide), h2⟩

theorem nat_add_eq_two_mul_and_add_xor (x : Nat) : ∀ y : Nat, x + y = 2 * (x &&& y) + (x ^^^ y) := by
  induction x using Nat.strong_induction_on with
  | _ x ih =>
    intro y
    rcases Nat.eq_zero_or_pos x with h0 | hpos
    · subst h0
      simp
    · have hx2 : x / 2 < x := Nat.div_lt_self hpos (by norm_num)
      have IH := ih (x / 2) hx2 (y / 2)
      have hand : (x &&& y) / 2 = x / 2 &&& y / 2 := Nat.and_div_two
      have hxor : (x ^^^ y) / 2 = x / 2 ^^^ y / 2 := Nat.xor_div_two
      have handm : ((x &&& y) % 2 = 1) ↔ (x % 2 = 1 ∧ y % 2 = 1) := Nat.and_mod_two_eq_one
      have hxorm : ((x ^^^ y) % 2 = 1) ↔ ¬((x % 2 = 1) ↔ (y % 2 = 1)) := by
        rw [Nat.xor_mod_two_eq_one]
      omega

theorem split_and {n x0 y0 : Nat} (xh yh : Nat) (hx : x0 < 2 ^ n) (hy : y0 < 2 ^ n) :
    (2 ^ n * xh + x0) &&& (2 ^ n * yh + y0) = 2 ^ n * (xh &&& yh) + (x0 &&& y0) := by
  apply Nat.eq_of_testBit_eq
  intro i
  rw [Nat.testBit_and, Nat.testBit_mul_pow_two_add _ hx, Nat.testBit_mul_pow_two_add _ hy,
    Nat.testBit_mul_pow_two_add _ (Nat.and_lt_two_pow _ hy)]
  by_cases h : i < n <;> simp [h, Nat.testBit_and]

theorem split_xor {n x0 y0 : Nat} (xh yh : Nat) (hx : x0 < 2 ^ n) (hy : y0 < 2 ^ n) :
    (2 ^ n * xh + x0) ^^^ (2 ^ n * yh + y0) = 2 ^ n * (xh ^^^ yh) + (x0 ^^^ y0) := by
  apply Nat.eq_of_testBit_eq
  intro i
  rw [Nat.testBit_xor, Nat.testBit_mul_pow_two_add _ hx, Nat.testBit_mul_pow_two_add _ hy,
    Nat.testBit_mul_pow_two_add _ (Nat.xor_lt_two_pow hx hy)]
  by_cases h : i < n <;> simp [h, Nat.testBit_xor]

theorem and_fe (x : Nat) (hx : x < 256) : x &&& 0xFE = 2 * (x / 2) := by
  have h2 : (x &&& 254) / 2 = x / 2 &&& 127 := by
    have := Nat.and_div_two (a := x) (b := 254)
    simpa using this
  have h127 : x / 2 &&& 127 = x / 2 % 128 := by
    rw [show (127 : Nat) = 2 ^ 7 - 1 by norm_num, Nat.and_pow_two_sub_one_eq_mod]
  have hm : ((x &&& 254) % 2 = 1) ↔ (x % 2 = 1 ∧ (254 : Nat) % 2 = 1) := Nat.and_mod_two_eq_one
  have hm0 : (x &&& 254) % 2 = 0 := by
    have hne : ¬((x &&& 254) % 2 = 1) := by
      rw [hm]
      rintro ⟨-, hbad⟩
      norm_num at hbad
    omega
  omega

theorem and_7f (x : Nat) (hx : x < 128) : x &&& 0x7F = x := by
  rw [show (0x7F : Nat) = 2 ^ 7 - 1 by norm_num, Nat.and_pow_two_sub_one_eq_mod]
  omega

theorem byteAt_lt (x i : Nat) : byteAt x i < 2 ^ 8 := Nat.mod_lt _ (by norm_num)

theorem byte_decomp (x : Nat) (hx : x < 2 ^ 32) :
    x = 2 ^ 8 * (2 ^ 8 * (2 ^ 8 * byteAt x 3 + byteAt x 2) + byteAt x 1) + byteAt x 0 := by
  unfold byteAt
  norm_num
  omega

theorem gpr_eq_bytewise (a b : Nat) (ha : a < 2 ^ 32) (hb : b < 2 ^ 32) :
    EmitPackedHalvingAddU8GPR a b = bytewiseHalvingAddU8 a b := by
  have hda := byte_decomp a ha
  have hdb := byte_decomp b hb
  have hAND : a &&& b =
      2 ^ 8 * (2 ^ 8 * (2 ^ 8 * (byteAt a 3 &&& byteAt b 3) + (byteAt a 2 &&& byteAt b 2))
        + (byteAt a 1 &&& byteAt b 1)) + (byteAt a 0 &&& byteAt b 0) := by
    conv_lhs => rw [hda, hdb]
    rw [split_and _ _ (byteAt_lt a 0) (byteAt_lt b 0),
      split_and _ _ (byteAt_lt a 1) (byteAt_lt b 1),
      split_and _ _ (byteAt_lt a 2) (byteAt_lt b 2)]
  have hXOR : a ^^^ b =
      2 ^ 8 * (2 ^ 8 * (2 ^ 8 * (byteAt a 3 ^^^ byteAt b 3) + (byteAt a 2 ^^^ byteAt b 2))
        + (byteAt a 1 ^^^ byteAt b 1)) + (byteAt a 0 ^^^ byteAt b 0) := by
    conv_lhs => rw [hda, hdb]
    rw [split_xor _ _ (byteAt_lt a 0) (byteAt_lt b 0),
      split_xor _ _ (byteAt_lt a 1) (byteAt_lt b 1),
      split_xor _ _ (byteAt_lt a 2) (byteAt_lt b 2)]
  have hc0 : byteAt a 0 ^^^ byteAt b 0 < 2 ^ 8 := Nat.xor_lt_two_pow (byteAt_lt a 0) (byteAt_lt b 0)
  have hc1 : byteAt a 1 ^^^ byteAt b 1 < 2 ^ 8 := Nat.xor_lt_two_pow (byteAt_lt a 1) (byteAt_lt b 1)
  have hc2 : byteAt a 2 ^^^ byteAt b 2 < 2 ^ 8 := Nat.xor_lt_two_pow (byteAt_lt a 2) (byteAt_lt b 2)
  have hc3 : byteAt a 3 ^^^ byteAt b 3 < 2 ^ 8 := Nat.xor_lt_two_pow (byteAt_lt a 3) (byteAt_lt b 3)
  have hshift1 : (a ^^^ b) >>> 1 =
      2 ^ 7 * (2 ^ 8 * (2 ^ 8 * (byteAt a 3 ^^^ byteAt b 3) + (byteAt a 2 ^^^ byteAt b 2))
        + (byteAt a 1 ^^^ byteAt b 1)) + (byteAt a 0 ^^^ byteAt b 0) / 2 := by
    rw [Nat.shiftRight_eq_div_pow, hXOR]
    norm_num
    omega
  have hmask : ((a ^^^ b) >>> 1) &&& 0x7F7F7F7F =
      2 ^ 7 * (2 ^ 8 * (2 ^ 8 * ((byteAt a 3 ^^^ byteAt b 3) &&& 0xFE)
          + ((byteAt a 2 ^^^ byteAt b 2) &&& 0xFE))
        + ((byteAt a 1 ^^^ byteAt b 1) &&& 0xFE))
      + ((byteAt a 0 ^^^ byteAt b 0) / 2 &&& 0x7F) := by
    rw [hshift1, show (0x7F7F7F7F : Nat) = 2 ^ 7 * 0xFEFEFE + 0x7F by norm_num,
      split_and _ _ (by omega) (by norm_num),
      show (0xFEFEFE : Nat) = 2 ^ 8 * 0xFEFE + 0xFE by norm_num,
      split_and _ _ hc1 (by norm_num),
      show (0xFEFE : Nat) = 2 ^ 8 * 0xFE + 0xFE by norm_num,
      split_and _ _ hc2 (by norm_num)]
  have hfe1 := and_fe _ hc1
  have hfe2 := and_fe _ hc2
  have hfe3 := and_fe _ hc3
  have h7f0 := and_7f ((byteAt a 0 ^^^ byteAt b 0) / 2) (by omega)
  have hid0 := nat_add_eq_two_mul_and_add_xor (byteAt a 0) (byteAt b 0)
  have hid1 := nat_add_eq_two_mul_and_add_xor (byteAt a 1) (byteAt b 1)
  have hid2 := nat_add_eq_two_mul_and_add_xor (byteAt a 2) (byteAt b 2)
  have hid3 := nat_add_eq_two_mul_and_add_xor (byteAt a 3) (byteAt b 3)
  have hb0 := byteAt_lt a 0
  have hb1 := byteAt_lt a 1
  have hb2 := byteAt_lt a 2
  have hb3 := byteAt_lt a 3
  have hb4 := byteAt_lt b 0
  have hb5 := byteAt_lt b 1
  have hb6 := byteAt_lt b 2
  have hb7 := byteAt_lt b 3
  have hsum : (a &&& b) + (((a ^^^ b) >>> 1) &&& 0x7F7F7F7F) = bytewiseHalvingAddU8 a b := by
    rw [hAND, hmask, hfe1, hfe2, hfe3, h7f0]
    unfold bytewiseHalvingAddU8
    clear hda hdb hXOR hshift1 hAND hmask ha hb
    omega
  have hlt : bytewiseHalvingAddU8 a b < 2 ^ 32 := by
    unfold bytewiseHalvingAddU8
    clear hda hdb hXOR hshift1 hAND hmask ha hb hsum hid0 hid1 hid2 hid3
    omega
  unfold EmitPackedHalvingAddU8GPR
  rw [hsum]
  exact Nat.mod_eq_of_lt hlt

theorem sse_lane_eq (a b i : Nat) :
    sseHalvingLane a b i % 2 ^ 8 = (byteAt a i + byteAt b i) / 2 := by
  have h1 := byteAt_lt a i
  have h2 := byteAt_lt b i
  have hlt : byteAt a i + byteAt b i < 2 ^ 16 := by omega
  unfold sseHalvingLane
  rw [Nat.mod_eq_of_lt hlt, Nat.shiftRight_eq_div_pow, pow_one,
    Nat.mod_eq_of_lt (show (byteAt a i + byteAt b i) / 2 < 2 ^ 8 by omega)]

theorem sse_eq_bytewise (a b : Nat) :
    EmitPackedHalvingAddU8SSE a b = bytewiseHalvingAddU8 a b := by
  unfold EmitPackedHalvingAddU8SSE bytewiseHalvingAddU8
  rw [sse_lane_eq, sse_lane_eq, sse_lane_eq, sse_lane_eq]

/-- Claim C6: the SSSE3 path and the pure-GPR SWAR fallback of
`packed_halving_add_u8` compute the same value, equal to the byte-wise
`(a_i + b_i) >> 1` in each of the four lanes with no carry crossing lane
boundaries. -/
theorem packedHalvingAddU8_correct (a b : Nat) (ha : a < 2 ^ 32) (hb : b < 2 ^ 32) :
    EmitPackedHalvingAddU8SSE a b = bytewiseHalvingAddU8 a b ∧
    EmitPackedHalvingAddU8GPR a b = bytewiseHalvingAddU8 a b ∧
    EmitPackedHalvingAddU8SSE a b = EmitPackedHalvingAddU8GPR a b := by
  refine ⟨sse_eq_bytewise a b, gpr_eq_bytewise a b ha hb, ?_⟩
  rw [sse_eq_bytewise a b, gpr_eq_bytewise a b ha hb]

/-- Witness for C6, instantiating the scenario E4: both paths of
`packed_halving_add_u8(0x01020304, 0x03040506)` give `0x02030405`. -/
theorem packedHalvingAddU8_correct_witness :
    EmitPackedHalvingAddU8GPR 0x01020304 0x03040506 = 0x02030405 ∧
    EmitPackedHalvingAddU8SSE 0x01020304 0x03040506 = 0x02030405 := by
  have h := packedHalvingAddU8_correct 0x01020304 0x03040506 (by norm_num) (by norm_num)
  exact ⟨h.2.1.trans (by decide), h.1.trans (by decide)⟩

theorem testBit_c512 (i : Nat) : Nat.testBit 512 i = decide (i = 9) := by
  rw [show (512 : Nat) = 2 ^ 9 by norm_num, Nat.testBit_two_pow, decide_eq_decide]
  exact eq_comm

theorem testBit_maskFDFF (i : Nat) :
    Nat.testBit 0xFFFFFDFF i = decide (i < 32 ∧ i ≠ 9) := by
  by_cases h : i < 32
  · interval_cases i <;> decide
  · rw [testBit_high_false _ _ (by norm_num) (by omega)]
    simp
    omega

theorem or32_bits (x i : Nat) :
    Nat.testBit (x ||| 32) i = if i = 5 then true else Nat.testBit x i := by
  rw [Nat.testBit_or, testBit_c32]
  by_cases h : i = 5 <;> simp [h]

theorem or512_bits (x i : Nat) :
    Nat.testBit (x ||| 512) i = if i = 9 then true else Nat.testBit x i := by
  rw [Nat.testBit_or, testBit_c512]
  by_cases h : i = 9 <;> simp [h]

theorem andDF_bits (x i : Nat) (hx : x < 2 ^ 32) :
    Nat.testBit (x &&& 0xFFFFFFDF) i = if i = 5 then false else Nat.testBit x i := by
  rw [Nat.testBit_and, testBit_maskDF]
  by_cases h5 : i = 5
  · simp [h5]
  · by_cases h32 : i < 32
    · simp [h5, h32]
    · rw [testBit_high_false x i hx (by omega)]
      simp [h5]

theorem andFDFF_bits (x i : Nat) (hx : x < 2 ^ 32) :
    Nat.testBit (x &&& 0xFFFFFDFF) i = if i = 9 then false else Nat.testBit x i := by
  rw [Nat.testBit_and, testBit_maskFDFF]
  by_cases h9 : i = 9
  · simp [h9]
  · by_cases h32 : i < 32
    · simp [h9, h32]
    · rw [testBit_high_false x i hx (by omega)]
      simp [h9]

theorem linkBlockCpsrUpdate_bits (cpsr : Nat) (next initialLoc : LocationDescriptor)
    (h : cpsr < 2 ^ 32) (i : Nat) :
    Nat.testBit (linkBlockCpsrUpdate cpsr next initialLoc) i =
      if i = 5 then (if next.tflag ≠ initialLoc.tflag then next.tflag else Nat.testBit cpsr 5)
      else if i = 9 then (if next.eflag ≠ initialLoc.eflag then next.eflag else Nat.testBit cpsr 9)
      else Nat.testBit cpsr i := by
  have h1 : cpsr ||| 32 < 2 ^ 32 := Nat.or_lt_two_pow h (by norm_num)
  have h2 : cpsr &&& 0xFFFFFFDF < 2 ^ 32 := lt_of_le_of_lt Nat.and_le_left h
  unfold linkBlockCpsrUpdate
  by_cases ht : next.tflag = initialLoc.tflag <;>
    by_cases he : next.eflag = initialLoc.eflag <;>
      cases hnt : next.tflag <;> cases hne : next.eflag <;>
        simp only [ht, he, hnt, hne, ne_eq, not_true_eq_false, not_false_eq_true,
          if_true, if_false, ite_true, ite_false, Bool.false_eq_true, Bool.true_eq_false,
          or32_bits, or512_bits, andDF_bits _ _ h, andDF_bits _ _ h1,
          andFDFF_bits _ _ h, andFDFF_bits _ _ h1, andFDFF_bits _ _ h2,
          or512_bits, andDF_bits, andFDFF_bits] <;>
        · by_cases hi5 : i = 5 <;> by_cases hi9 : i = 9 <;>
            simp_all [or32_bits, or512_bits, andDF_bits _ _ h, andDF_bits _ _ h1,
              andFDFF_bits _ _ h, andFDFF_bits _ _ h1, andFDFF_bits _ _ h2,
              testBit_c32, testBit_c512, testBit_maskDF, testBit_maskFDFF]


/-- Claim C7: the code emitted for a `LinkBlock(next)` terminal rewrites CPSR
bits 5 (T) and 9 (E) exactly when the destination flags differ from the current
location's, jumps to the target block (through the 6-byte patchable `JG`) only
when the target is compiled and `cycles_remaining` is strictly positive, and in
every other case stores the destination PC and returns to the dispatcher. -/
theorem linkBlock_correct (cpsr : Nat) (cycles : Int)
    (next initialLoc : LocationDescriptor) (target : Option Nat)
    (hcpsr : cpsr < 2 ^ 32) :
    (Nat.testBit (EmitTerminalLinkBlockRun cpsr cycles next initialLoc target).1 5
      = (if next.tflag ≠ initialLoc.tflag then next.tflag else Nat.testBit cpsr 5)) ∧
    (Nat.testBit (EmitTerminalLinkBlockRun cpsr cycles next initialLoc target).1 9
      = (if next.eflag ≠ initialLoc.eflag then next.eflag else Nat.testBit cpsr 9)) ∧
    (∀ i, i ≠ 5 → i ≠ 9 →
      Nat.testBit (EmitTerminalLinkBlockRun cpsr cycles next initialLoc target).1 i
        = Nat.testBit cpsr i) ∧
    (∀ p, (EmitTerminalLinkBlockRun cpsr cycles next initialLoc target).2 = .jumpTo p ↔
      (target = some p ∧ 0 < cycles)) ∧
    ((target = none ∨ cycles ≤ 0) →
      (EmitTerminalLinkBlockRun cpsr cycles next initialLoc target).2
        = .dispatch next.pc) ∧
    (rewritePatchSite .jg target = some (6, 6 - patchEmitLen .jg target)) := by
  have hfst : (EmitTerminalLinkBlockRun cpsr cycles next initialLoc target).1
      = linkBlockCpsrUpdate cpsr next initialLoc := by
    unfold EmitTerminalLinkBlockRun
    cases target
    · rfl
    · dsimp only
      split <;> rfl
  refine ⟨?_, ?_, ?_, ?_, ?_, ?_⟩
  · rw [hfst, linkBlockCpsrUpdate_bits cpsr next initialLoc hcpsr 5]
    simp
  · rw [hfst, linkBlockCpsrUpdate_bits cpsr next initialLoc hcpsr 9]
    simp
  · intro i hi5 hi9
    rw [hfst, linkBlockCpsrUpdate_bits cpsr next initialLoc hcpsr i, if_neg hi5, if_neg hi9]
  · intro p
    unfold EmitTerminalLinkBlockRun
    cases target with
    | none => simp
    | some q =>
        dsimp only
        by_cases hcy : 0 < cycles
        · rw [if_pos hcy]
          simp [hcy]
        · rw [if_neg hcy]
          simp [hcy]
  · intro hcase
    unfold EmitTerminalLinkBlockRun
    cases target with
    | none => rfl
    | some q =>
        rcases hcase with hnone | hcy
        · exact absurd hnone (by simp)
        · dsimp only
          rw [if_neg (by omega)]
  · cases target <;> rfl

/-- Witness for C7: with a Thumb-entering destination, a compiled target and one
cycle left, the emitted code sets CPSR.T and jumps to the target entry point. -/
theorem linkBlock_correct_witness :
    Nat.testBit (EmitTerminalLinkBlockRun 0 1 ⟨0x100, true, false, 0⟩
      ⟨0, false, false, 0⟩ (some 0x5000)).1 5 = true ∧
    (EmitTerminalLinkBlockRun 0 1 ⟨0x100, true, false, 0⟩
      ⟨0, false, false, 0⟩ (some 0x5000)).2 = .jumpTo 0x5000 := by
  have h := linkBlock_correct 0 1 ⟨0x100, true, false, 0⟩ ⟨0, false, false, 0⟩
    (some 0x5000) (by norm_num)
  exact ⟨h.1.trans (by norm_num), ((h.2.2.2.1 0x5000).mpr ⟨rfl, by norm_num⟩)⟩

/-- Claim C8: every patch site keeps its recorded byte budget (6 for `JG`, 13
for `JMP`, 10 for `MOV RCX, imm64`) at first emission and across every
`patch`/`unpatch` rewrite; shorter sequences are NOP-padded to the budget and
longer ones panic; `unpatch` rewrites with a null target, which resolves to the
return-to-dispatch fallback. -/
theorem patchSite_budget_correct :
    (patchBudget .jg = 6 ∧ patchBudget .jmp = 13 ∧ patchBudget .movRcx = 10) ∧
    (∀ (k : PatchKind) (t : Option Nat),
      rewritePatchSite k t = some (patchBudget k, patchBudget k - patchEmitLen k t)) ∧
    (∀ e b : Nat, e ≤ b → EnsurePatchLocationSize e b = some (b, b - e)) ∧
    (∀ e b : Nat, b < e → EnsurePatchLocationSize e b = none) ∧
    (∀ k : PatchKind, unpatchSite k = rewritePatchSite k none) ∧
    (∀ ra : Nat, patchSiteResolvedTarget ra .jmp none = some ra ∧
      patchSiteResolvedTarget ra .movRcx none = some ra ∧
      patchSiteResolvedTarget ra .jg none = none) := by
  refine ⟨⟨rfl, rfl, rfl⟩, ?_, ?_, ?_, fun k => rfl, fun ra => ⟨rfl, rfl, rfl⟩⟩
  · intro k t
    cases k <;> cases t <;> rfl
  · intro e b hle
    unfold EnsurePatchLocationSize
    rw [if_neg (by omega)]
    have he : e + (b - e) = b := by omega
    rw [he]
  · intro e b hlt
    unfold EnsurePatchLocationSize
    rw [if_pos hlt]

/-- Witness for C8: a populated and a null `JG` rewrite both occupy exactly 6
bytes (the null one is all padding), a null `JMP` rewrite emits the 13-byte
fallback with no padding, and an over-budget emission panics. -/
theorem patchSite_budget_correct_witness :
    rewritePatchSite .jg (some 0x1234) = some (6, 0) ∧
    rewritePatchSite .jg none = some (6, 6) ∧
    rewritePatchSite .jmp none = some (13, 0) ∧
    EnsurePatchLocationSize 14 13 = none := by
  have h := patchSite_budget_correct
  exact ⟨h.2.1 .jg (some 0x1234), h.2.1 .jg none, h.2.1 .jmp none,
    h.2.2.2.1 14 13 (by norm_num)⟩

/-- Claim C9: an exclusive write invokes the write callback and clears the
monitor exactly when `exclusive_state` is non-zero and the address agrees with
`exclusive_address` on the bits selected by `RESERVATION_GRANULE_MASK`, and
then yields result 0; otherwise it yields result 1 and leaves the monitor
untouched.  The 64-bit variant assembles its value as low word plus
`2^32` times the high word. -/
theorem exclusiveWrite_correct (s : MonitorState) (mask addr : Nat) :
    ((ExclusiveWriteRun s mask addr).2.2 = true ↔
      (s.exclusiveState ≠ 0 ∧ (addr ^^^ s.exclusiveAddress) &&& mask = 0)) ∧
    ((ExclusiveWriteRun s mask addr).2.2 = true →
      (ExclusiveWriteRun s mask addr).1 = 0 ∧
      (ExclusiveWriteRun s mask addr).2.1 = ⟨0, s.exclusiveAddress⟩) ∧
    ((ExclusiveWriteRun s mask addr).2.2 = false →
      (ExclusiveWriteRun s mask addr).1 = 1 ∧
      (ExclusiveWriteRun s mask addr).2.1 = s) ∧
    (∀ lo hi : Nat, hi < 2 ^ 32 →
      ExclusiveWrite64Value lo hi = lo % 2 ^ 32 + 2 ^ 32 * hi) := by
  refine ⟨?_, ?_, ?_, ?_⟩
  · unfold ExclusiveWriteRun
    split_ifs with h1 h2 <;> simp_all
  · unfold ExclusiveWriteRun
    split_ifs with h1 h2 <;> simp_all
  · unfold ExclusiveWriteRun
    split_ifs with h1 h2 <;> simp_all
  · intro lo hi hhi
    unfold ExclusiveWrite64Value
    have h1 : hi * 2 ^ 32 < 2 ^ 64 := by
      calc hi * 2 ^ 32 < 2 ^ 32 * 2 ^ 32 :=
            (Nat.mul_lt_mul_right (by norm_num)).mpr hhi
        _ = 2 ^ 64 := by norm_num
    have h2 := Nat.mul_add_lt_is_or (i := 32) (Nat.mod_lt lo (by norm_num)) hi
    rw [Nat.shiftLeft_eq, Nat.mod_eq_of_lt h1, Nat.lor_comm, Nat.mul_comm hi (2 ^ 32), ← h2]
    omega

/-- Witness for C9: a hot monitor at a matching address commits the write with
result 0 and clears the monitor; the value assembly matches at a sample pair. -/
theorem exclusiveWrite_correct_witness :
    (ExclusiveWriteRun ⟨1, 0x1000⟩ 0xFFFFFFF8 0x1004).2.2 = true ∧
    (ExclusiveWriteRun ⟨1, 0x1000⟩ 0xFFFFFFF8 0x1004).1 = 0 ∧
    ExclusiveWrite64Value 0xAABBCCDD 0x11223344 = 0x11223344AABBCCDD := by
  have h := exclusiveWrite_correct ⟨1, 0x1000⟩ 0xFFFFFFF8 0x1004
  have hcommit : (ExclusiveWriteRun ⟨1, 0x1000⟩ 0xFFFFFFF8 0x1004).2.2 = true :=
    h.1.mpr ⟨by norm_num, by decide⟩
  exact ⟨hcommit, (h.2.1 hcommit).1,
    (h.2.2.2 0xAABBCCDD 0x11223344 (by norm_num)).trans (by norm_num)⟩

/-- Claim C10: a freshly constructed `IR::Block` has no terminal; `SetTerminal`
on a block whose terminal is already set hits the fatal assertion; after a
successful `SetTerminal` with a non-`Invalid` terminal, `HasTerminal` is true
and `GetTerminal` returns exactly the stored terminal. -/
theorem blockTerminal_correct :
    (∀ loc, (mkBlock loc).HasTerminal = false) ∧
    (∀ (b : Block) (t : Terminal), b.HasTerminal = true → b.SetTerminal t = none) ∧
    (∀ (b b2 : Block) (t : Terminal), b.SetTerminal t = some b2 → t.which ≠ 0 →
      b2.HasTerminal = true ∧ b2.GetTerminal = t) := by
  refine ⟨fun loc => rfl, ?_, ?_⟩
  · intro b t hset
    unfold Block.SetTerminal
    rw [if_pos hset]
  · intro b b2 t hset hwhich
    unfold Block.SetTerminal at hset
    by_cases hterm : b.HasTerminal
    · rw [if_pos hterm] at hset
      exact absurd hset (by simp)
    · rw [if_neg hterm] at hset
      obtain rfl : { b with terminal := t } = b2 := Option.some_injective _ hset
      constructor
      · unfold Block.HasTerminal
        simpa using hwhich
      · rfl

/-- Witness for C10: a fresh block accepts a `ReturnToDispatch` terminal once;
the updated block reports and returns it, and a second `SetTerminal` is
fatal. -/
theorem blockTerminal_correct_witness :
    (mkBlock ⟨0, false, false, 0⟩).HasTerminal = false ∧
    ({ mkBlock ⟨0, false, false, 0⟩ with
        terminal := .returnToDispatch } : Block).HasTerminal = true ∧
    ({ mkBlock ⟨0, false, false, 0⟩ with
        terminal := .returnToDispatch } : Block).GetTerminal = .returnToDispatch ∧
    ({ mkBlock ⟨0, false, false, 0⟩ with
        terminal := .returnToDispatch } : Block).SetTerminal .popRSBHint = none := by
  have h := blockTerminal_correct
  have hstep := h.2.2 (mkBlock ⟨0, false, false, 0⟩)
    { mkBlock ⟨0, false, false, 0⟩ with terminal := .returnToDispatch }
    .returnToDispatch rfl (by norm_num [Terminal.which])
  exact ⟨h.1 _, hstep.1, hstep.2, h.2.1 _ _ hstep.1⟩

end Dynarmic
